import Mathlib

/-!
Verification of the `debug_stub_derive` code generator (`src/lib.rs`).

The development shallowly embeds the generator: the annotation syntax tree
(the subset of `syn::Meta` the code inspects), the override descriptor
parser (`extract_value_attr`, `extract_named_value_attrs`), the per-field
statement generators (`implement_replace_attr`, `implement_some_attr`,
`implement_result_attr`, `implement_ok_attr`, `implement_err_attr`), the
top-level expansion (`expand_derive_serialize`) and the runtime semantics
of the emitted `fmt::Debug` implementation.  The output-builder collaborator
(the standard formatter's `debug_struct`/`debug_tuple` builders) is external
to the repository and is modelled from the specification's description of
the compact and expanded render modes, pinned against the byte-exact strings
of the repository's test suite.
-/

namespace DebugStubDerive

/-- Literals occurring in annotation values (`syn::Lit`, restricted to the
shapes the generator distinguishes: string literals succeed the
`LitStr` re-parse, everything else fails it). -/
inductive Lit where
  | str (s : String)
  | int (n : Nat)
  | boolLit (b : Bool)
deriving DecidableEq

mutual
/-- The subset of `syn::Meta` the generator inspects: a bare path
(`#[debug_stub]`), a list (`#[debug_stub(...)]`), or a name-value pair
(`#[debug_stub = "..."]`).  Each carries its path rendered as a string
(`meta.path().is_ident(...)` comparisons). -/
inductive Meta where
  | path (p : String)
  | list (p : String) (nested : List NestedMeta)
  | nameValue (p : String) (l : Lit)
/-- `syn::NestedMeta`: an inner meta item or a bare literal. -/
inductive NestedMeta where
  | meta (m : Meta)
  | lit (l : Lit)
end

/-- The path of a `Meta` (`syn::Meta::path`). -/
def Meta.pathOf : Meta → String
  | .path p => p
  | .list p _ => p
  | .nameValue p _ => p

/-- One `syn::Attribute`: a source location (abstracting `Span`) and the
result of `attr.parse_meta()` (`none` when parsing fails, in which case the
source skips the attribute). -/
structure Attribute where
  loc : Nat
  meta : Option Meta

/-- The filter applied by both attribute loops in the source: keep the
parsed meta only when parsing succeeded and the path is `debug_stub`. -/
def parsedDebugStub (a : Attribute) : Option Meta :=
  match a.meta with
  | some m => if m.pathOf = "debug_stub" then some m else none
  | none => none

/-- A generation-time configuration error (`syn::Error`): the source
location it is attached to and its message. -/
structure ConfigError where
  loc : Nat
  msg : String
deriving DecidableEq

/-- The value expression passed to `f.field(...)` in an emitted statement.
`own` is the field's own value (`&self.x` / a bound ident); the other
constructors are the wrapped `format_args!` expressions built by the
`implement_*` functions. -/
inductive FieldVal where
  | own
  | fmtArgs (s : String)
  | fmtNone
  | someWrap (s : String)
  | okWrap (s : String)
  | errWrap (s : String)
  | errOwn
  | okOwn
deriving DecidableEq

/-- The runtime condition guarding a two-branch emitted statement
(`is_some()`, `is_ok()`, `is_err()` on the field's value). -/
inductive Cond where
  | isSome
  | isOk
  | isErr
deriving DecidableEq

/-- One emitted formatter statement for one field: either a single
`f.field(label?, value)` call, or an `if cond { f.field(label?, thenV) }
else { f.field(label?, elseV) }` branch on the field's runtime value. -/
inductive Stmt where
  | fieldStmt (label : Option String) (v : FieldVal)
  | iteStmt (c : Cond) (label : Option String) (thenV elseV : FieldVal)
deriving DecidableEq

/-- `implement_replace_attr`: statement for `#[debug_stub = "..."]`. -/
def implement_replace_attr (name : Option String) (value : String) : Stmt :=
  .fieldStmt name (.fmtArgs value)

/-- `implement_some_attr`: statement for `#[debug_stub(some = "...")]`. -/
def implement_some_attr (someText : String) (name : Option String) : Stmt :=
  .iteStmt .isSome name (.someWrap someText) .fmtNone

/-- `implement_result_attr`: statement for
`#[debug_stub(ok = "...", err = "...")]`. -/
def implement_result_attr (ok err : String) (name : Option String) : Stmt :=
  .iteStmt .isOk name (.okWrap ok) (.errWrap err)

/-- `implement_ok_attr`: statement for `#[debug_stub(ok = "...")]`. -/
def implement_ok_attr (ok : String) (name : Option String) : Stmt :=
  .iteStmt .isErr name .errOwn (.okWrap ok)

/-- `implement_err_attr`: statement for `#[debug_stub(err = "...")]`. -/
def implement_err_attr (err : String) (name : Option String) : Stmt :=
  .iteStmt .isOk name .okOwn (.errWrap err)

/-- The loop body of `extract_named_value_attrs`: a name-value meta with
a string literal overwrites the accumulator slot of its key (`some`,
`ok`, `err`); every other entry leaves the accumulator unchanged.  The
accumulator is `(ok, err, some)` as in the source. -/
def recordNamedValue (acc : Option String × Option String × Option String)
    (nm : NestedMeta) : Option String × Option String × Option String :=
  match nm with
  | .meta (.nameValue p (.str lit)) =>
      if p = "some" then (acc.1, acc.2.1, some lit)
      else if p = "ok" then (some lit, acc.2.1, acc.2.2)
      else if p = "err" then (acc.1, some lit, acc.2.2)
      else acc
  | _ => acc

/-- `extract_named_value_attrs`: scan the nested items of a keyed list,
recording the last string value seen for each of the keys `some`, `ok`,
`err`; everything else is skipped.  Returns `(ok, err, some)` as in the
source. -/
def extract_named_value_attrs (nested : List NestedMeta) :
    Option String × Option String × Option String :=
  nested.foldl recordNamedValue (none, none, none)

/-- `extract_value_attr`: walk the field's attributes; the first one that
parses to a `debug_stub` meta decides the statement (or errors); with no
such attribute the field contributes its own value.  Returns the
value-used flag and the statement. -/
def extract_value_attr (attrs : List Attribute) (name : Option String) :
    Except ConfigError (Bool × Stmt) :=
  match attrs with
  | [] => .ok (true, .fieldStmt name .own)
  | a :: rest =>
    match parsedDebugStub a with
    | none => extract_value_attr rest name
    | some (.path _) => .error ⟨a.loc, "expected `List` or `NameValue`"⟩
    | some (.list _ nested) =>
      match extract_named_value_attrs nested with
      | (none, none, some s) => .ok (true, implement_some_attr s name)
      | (some ok, some err, none) => .ok (true, implement_result_attr ok err name)
      | (some ok, none, none) => .ok (true, implement_ok_attr ok name)
      | (none, some err, none) => .ok (true, implement_err_attr err name)
      | _ => .error ⟨a.loc,
          "expected `some = _`, `ok = _`, `err = _`, or `ok = _, err = _`"⟩
    | some (.nameValue _ l) =>
      match l with
      | .str s => .ok (false, implement_replace_attr name s)
      | _ => .error ⟨a.loc, "expected string literal"⟩

mutual
/-- Modelled from the spec: the tree of contributions a value hands to the
output builder (§6) — the renderable form every `fmt::Debug` value
produces: raw text (primitives, `format_args!` output), a labeled record
(`debug_struct`), or a positional tuple (`debug_tuple`). -/
inductive DebugVal where
  | str (s : String)
  | strukt (name : String) (fields : DFields)
  | tup (name : String) (fields : DItems)
/-- Labeled record entries of a `DebugVal`. -/
inductive DFields where
  | nil
  | cons (label : String) (v : DebugVal) (rest : DFields)
/-- Positional tuple entries of a `DebugVal`. -/
inductive DItems where
  | nil
  | cons (v : DebugVal) (rest : DItems)
end

/-- Indent every line of a string by four spaces (the formatter's pad
adapter applied to a contribution in expanded mode). -/
def padChars : List Char → List Char
  | [] => []
  | c :: rest =>
      if c = '\n' then c :: ' ' :: ' ' :: ' ' :: ' ' :: padChars rest
      else c :: padChars rest

/-- Pad a rendered contribution: four spaces first, and four more after
every newline. -/
def pad (s : String) : String :=
  "    " ++ String.mk (padChars s.data)

mutual
/-- Modelled from the spec: the output builder's rendering (§6).  Compact
mode is single-line and comma-separated; expanded mode puts one
contribution per line with a trailing comma, indented.  Record and tuple
shapes with no contributions render as the bare name.  The byte-level
shapes are pinned by the repository's test suite. -/
def render (alt : Bool) : DebugVal → String
  | .str s => s
  | .strukt n .nil => n
  | .strukt n (.cons l v rest) =>
      if alt then n ++ " \x7b\n" ++ renderFields alt (.cons l v rest) ++ "\x7d"
      else n ++ " \x7b " ++ renderFields alt (.cons l v rest) ++ " \x7d"
  | .tup n .nil => n
  | .tup n (.cons v rest) =>
      if alt then n ++ "(\n" ++ renderItems alt (.cons v rest) ++ ")"
      else n ++ "(" ++ renderItems alt (.cons v rest) ++ ")"
/-- Record entries: comma-separated `label: value` in compact mode, one
indented `label: value,` line per entry in expanded mode. -/
def renderFields (alt : Bool) : DFields → String
  | .nil => ""
  | .cons l v rest =>
      if alt then pad (l ++ ": " ++ render alt v ++ ",") ++ "\n" ++ renderFields alt rest
      else l ++ ": " ++ render alt v ++
        (match rest with | .nil => "" | .cons _ _ _ => ", ") ++ renderFields alt rest
/-- Tuple entries: comma-separated values in compact mode, one indented
`value,` line per entry in expanded mode. -/
def renderItems (alt : Bool) : DItems → String
  | .nil => ""
  | .cons v rest =>
      if alt then pad (render alt v ++ ",") ++ "\n" ++ renderItems alt rest
      else render alt v ++
        (match rest with | .nil => "" | .cons _ _ => ", ") ++ renderItems alt rest
end

/-- A runtime field value as the generated code can observe it: an
arbitrary value carrying its own debug tree, or an optional /
success-failure container (whose `is_some`/`is_ok`/`is_err` probes and
payloads the emitted statements use). -/
inductive RVal where
  | prim (d : DebugVal)
  | optNone
  | optSome (v : RVal)
  | resOk (v : RVal)
  | resErr (v : RVal)

/-- The debug tree a runtime value produces through its own `Debug`
implementation (`Option` and `Result` use their derived shapes). -/
def debugOf : RVal → DebugVal
  | .prim d => d
  | .optNone => .str "None"
  | .optSome v => .tup "Some" (.cons (debugOf v) .nil)
  | .resOk v => .tup "Ok" (.cons (debugOf v) .nil)
  | .resErr v => .tup "Err" (.cons (debugOf v) .nil)

/-- Evaluate a statement's guard on the field's runtime value; `none` when
the probe does not apply to the value's shape (the host type system rules
this out for the code the generator emits). -/
def evalCond : Cond → RVal → Option Bool
  | .isSome, .optSome _ => some true
  | .isSome, .optNone => some false
  | .isOk, .resOk _ => some true
  | .isOk, .resErr _ => some false
  | .isErr, .resErr _ => some true
  | .isErr, .resOk _ => some false
  | _, _ => none

/-- Evaluate the value expression of a statement against the field's
runtime value, yielding the contribution handed to the builder.
`format_args!` values render as their text in both modes; `Debug` for
`Option`/`Result` wrappers produces the `Some`/`Ok`/`Err` tuple shapes. -/
def evalFieldVal : FieldVal → RVal → Option DebugVal
  | .own, rv => some (debugOf rv)
  | .fmtArgs s, _ => some (.str s)
  | .fmtNone, _ => some (.str "None")
  | .someWrap s, _ => some (.tup "Some" (.cons (.str s) .nil))
  | .okWrap s, _ => some (.tup "Ok" (.cons (.str s) .nil))
  | .errWrap s, _ => some (.tup "Err" (.cons (.str s) .nil))
  | .errOwn, .resErr e => some (.tup "Err" (.cons (debugOf e) .nil))
  | .errOwn, _ => none
  | .okOwn, .resOk v => some (.tup "Ok" (.cons (debugOf v) .nil))
  | .okOwn, _ => none

/-- Run one emitted statement on its field's runtime value, producing the
`f.field` contribution (optional label and debug tree). -/
def runStmt : Stmt → RVal → Option (Option String × DebugVal)
  | .fieldStmt n v, rv => (evalFieldVal v rv).map (fun d => (n, d))
  | .iteStmt c n t e, rv =>
      match evalCond c rv with
      | some b => (evalFieldVal (if b then t else e) rv).map (fun d => (n, d))
      | none => none

/-- Run the emitted statements of a shape against its fields' runtime
values, in declaration order (one statement per field). -/
def runStmts : List Stmt → List RVal → Option (List (Option String × DebugVal))
  | [], [] => some []
  | s :: ss, r :: rs =>
      match runStmt s r with
      | some c =>
          match runStmts ss rs with
          | some cs => some (c :: cs)
          | none => none
      | none => none
  | _, _ => none

/-- Assemble record-mode contributions into builder entries (every
contribution of a record shape carries a label by construction). -/
def contribsToFields : List (Option String × DebugVal) → DFields
  | [] => .nil
  | (l, v) :: rest => .cons (l.getD "") v (contribsToFields rest)

/-- Assemble tuple-mode contributions into builder entries. -/
def contribsToItems : List (Option String × DebugVal) → DItems
  | [] => .nil
  | (_, v) :: rest => .cons v (contribsToItems rest)

/-- The field list of a struct or variant (`syn::Fields`): named fields
with their attributes, unnamed positional fields with their attributes, or
no fields at all. -/
inductive FieldsKind where
  | named (fields : List (String × List Attribute))
  | unnamed (fields : List (List Attribute))
  | unitFields

/-- One enum variant (`syn::Variant`): its name and its fields. -/
structure Variant where
  name : String
  fields : FieldsKind

/-- The shape of a type's data (`syn::Data`, unions excluded: the consumed
type description has no union kind). -/
inductive Data where
  | structData (fields : FieldsKind)
  | enumData (variants : List Variant)

/-- A generic parameter (`syn::GenericParam`): a type parameter with its
bound list, a lifetime parameter, or a const parameter. -/
inductive GenericParam where
  | typeParam (name : String) (bounds : List String)
  | lifetimeParam (name : String)
  | constParam (name : String)
deriving DecidableEq

/-- The bound push performed when `ignore_generics` is unset:
`generic_type_param.bounds.push(parse_quote!(::core::fmt::Debug))`, on type
parameters only. -/
def addDebugBound : GenericParam → GenericParam
  | .typeParam n bs => .typeParam n (bs ++ ["::core::fmt::Debug"])
  | p => p

/-- The derive input (`syn::DeriveInput`): type name, its attributes, its
generic parameters, and its data. -/
structure DeriveInput where
  ident : String
  attrs : List Attribute
  generics : List GenericParam
  data : Data

/-- One element of an emitted match-arm binding pattern: a bound
identifier, a wildcard `_` for an unused tuple position, or a trailing
`..` eliding unused named fields. -/
inductive Pat where
  | bind (x : String)
  | wild
  | rest
deriving DecidableEq

/-- The body of one emitted enum match arm: a record builder with its
statements, a tuple builder with its statements, or a bare
`f.write_str(variant_name)`. -/
inductive ArmBody where
  | structBody (stmts : List Stmt)
  | tupleBody (stmts : List Stmt)
  | unitBody
deriving DecidableEq

/-- One emitted match arm (`syn::Arm`): the variant it matches, its
binding pattern, and its body. -/
structure Arm where
  variantName : String
  pats : List Pat
  body : ArmBody
deriving DecidableEq

/-- The generated `Debug` implementation (`proc_macro2::TokenStream`
output of the four `implement_*` emitters): the type name, the (possibly
bounded) generic parameters, and the function body. -/
inductive Impl where
  | namedStructImpl (name : String) (generics : List GenericParam) (stmts : List Stmt)
  | unnamedStructImpl (name : String) (generics : List GenericParam) (stmts : List Stmt)
  | unitStructImpl (name : String) (generics : List GenericParam)
  | enumImpl (name : String) (generics : List GenericParam) (arms : List Arm)
deriving DecidableEq

/-- The generic-parameter list an emitted implementation carries. -/
def Impl.genericsOf : Impl → List GenericParam
  | .namedStructImpl _ g _ => g
  | .unnamedStructImpl _ g _ => g
  | .unitStructImpl _ g => g
  | .enumImpl _ g _ => g

/-- `implement_named_fields_struct_debug`: assemble the record-mode impl. -/
def implement_named_fields_struct_debug (ident : String) (generics : List GenericParam)
    (stmts : List Stmt) : Impl :=
  .namedStructImpl ident generics stmts

/-- `implement_unnamed_fields_struct_debug`: assemble the tuple-mode impl. -/
def implement_unnamed_fields_struct_debug (ident : String) (generics : List GenericParam)
    (stmts : List Stmt) : Impl :=
  .unnamedStructImpl ident generics stmts

/-- `implement_unit_struct_debug`: assemble the unit impl
(`f.write_str(name)`). -/
def implement_unit_struct_debug (ident : String) (generics : List GenericParam) : Impl :=
  .unitStructImpl ident generics

/-- `implement_enum_debug`: assemble the enum impl from its match arms. -/
def implement_enum_debug (ident : String) (generics : List GenericParam)
    (arms : List Arm) : Impl :=
  .enumImpl ident generics arms

/-- `generate_field_stmts`: one statement per named field, in order, with
the field's name as label. -/
def generate_field_stmts : List (String × List Attribute) → Except ConfigError (List Stmt)
  | [] => .ok []
  | (n, attrs) :: rest =>
      match extract_value_attr attrs (some n) with
      | .error e => .error e
      | .ok (_, stmt) =>
          match generate_field_stmts rest with
          | .error e => .error e
          | .ok stmts => .ok (stmt :: stmts)

/-- `generate_tuple_field_stmts`: one statement per positional field, in
order, with no label. -/
def generate_tuple_field_stmts : List (List Attribute) → Except ConfigError (List Stmt)
  | [] => .ok []
  | attrs :: rest =>
      match extract_value_attr attrs none with
      | .error e => .error e
      | .ok (_, stmt) =>
          match generate_tuple_field_stmts rest with
          | .error e => .error e
          | .ok stmts => .ok (stmt :: stmts)

/-- The loop body of `generate_enum_variant_fields`: per field (bound
ident, attributes, optional label) produce the statement, record a bound
ident when the value is used, a wildcard for an unused unnamed field, and
the unused-named-fields flag otherwise. -/
def generate_enum_variant_fields_core :
    List (String × List Attribute × Option String) →
    Except ConfigError (List Pat × List Stmt × Bool)
  | [] => .ok ([], [], false)
  | (ident, attrs, name) :: rest =>
      match extract_value_attr attrs name with
      | .error e => .error e
      | .ok (ident_used, stmt) =>
          match generate_enum_variant_fields_core rest with
          | .error e => .error e
          | .ok (pats, stmts, unused_fields) =>
              if ident_used then .ok (.bind ident :: pats, stmt :: stmts, unused_fields)
              else if name.isNone then .ok (.wild :: pats, stmt :: stmts, unused_fields)
              else .ok (pats, stmt :: stmts, true)

/-- `generate_enum_variant_fields`: binding pattern and statements for one
variant; a trailing `..` is appended when named fields were elided. -/
def generate_enum_variant_fields
    (fields : List (String × List Attribute × Option String)) :
    Except ConfigError (List Pat × List Stmt) :=
  match generate_enum_variant_fields_core fields with
  | .error e => .error e
  | .ok (pats, stmts, unused_fields) =>
      .ok (if unused_fields then pats ++ [.rest] else pats, stmts)

/-- `generate_arm`: one match arm for one variant.  Named fields bind
their own names and label contributions with them; unnamed fields bind
`tuple_i` with no label; a unit variant writes its bare name. -/
def generate_arm (variant : Variant) : Except ConfigError Arm :=
  match variant.fields with
  | .named fs =>
      match generate_enum_variant_fields (fs.map (fun f => (f.1, f.2, some f.1))) with
      | .error e => .error e
      | .ok (pats, stmts) => .ok ⟨variant.name, pats, .structBody stmts⟩
  | .unnamed fs =>
      match generate_enum_variant_fields
          (fs.enum.map (fun p => ("tuple_" ++ toString p.1, p.2, none))) with
      | .error e => .error e
      | .ok (pats, stmts) => .ok ⟨variant.name, pats, .tupleBody stmts⟩
  | .unitFields => .ok ⟨variant.name, [], .unitBody⟩

/-- `variants.iter().map(generate_arm).collect()`: arms in variant order,
failing on the first configuration error. -/
def generate_arms : List Variant → Except ConfigError (List Arm)
  | [] => .ok []
  | v :: rest =>
      match generate_arm v with
      | .error e => .error e
      | .ok arm =>
          match generate_arms rest with
          | .error e => .error e
          | .ok arms => .ok (arm :: arms)

/-- The type-level scan inside one `#[debug_stub(...)]` list: every nested
item must be a meta with path `ignore_generics`; anything else is the
type-level configuration error. -/
def typeLevelScan (loc : Nat) (nested : List NestedMeta) (ig : Bool) :
    Except ConfigError Bool :=
  match nested with
  | [] => .ok ig
  | .meta m :: rest =>
      if m.pathOf = "ignore_generics" then typeLevelScan loc rest true
      else .error ⟨loc, "expected `ignore_generics`"⟩
  | .lit _ :: _ => .error ⟨loc, "expected `ignore_generics`"⟩

/-- The attribute loop at the top of `expand_derive_serialize`: walk the
type-level attributes tracking the `ignore_generics` flag; a parsed
`debug_stub` meta that is not a list, or a list with unrecognized content,
is the type-level configuration error. -/
def scanIgnoreGenerics : List Attribute → Bool → Except ConfigError Bool
  | [], ig => .ok ig
  | a :: rest, ig =>
      match parsedDebugStub a with
      | none => scanIgnoreGenerics rest ig
      | some (.list _ nested) =>
          match typeLevelScan a.loc nested ig with
          | .error e => .error e
          | .ok ig2 => scanIgnoreGenerics rest ig2
      | some _ => .error ⟨a.loc, "expected `ignore_generics`"⟩

/-- `expand_derive_serialize`: the central expansion.  Compute the
`ignore_generics` flag, bound the generics accordingly, then emit the impl
for the data shape — or fail with the first configuration error and emit
nothing. -/
def expand_derive_serialize (ast : DeriveInput) : Except ConfigError Impl :=
  match scanIgnoreGenerics ast.attrs false with
  | .error e => .error e
  | .ok ignore_generics =>
    let generics_debug_bounded :=
      if ignore_generics then ast.generics else ast.generics.map addDebugBound
    match ast.data with
    | .structData (.named fields) =>
        match generate_field_stmts fields with
        | .error e => .error e
        | .ok stmts =>
            .ok (implement_named_fields_struct_debug ast.ident generics_debug_bounded stmts)
    | .structData (.unnamed fields) =>
        match generate_tuple_field_stmts fields with
        | .error e => .error e
        | .ok stmts =>
            .ok (implement_unnamed_fields_struct_debug ast.ident generics_debug_bounded stmts)
    | .structData .unitFields =>
        .ok (implement_unit_struct_debug ast.ident generics_debug_bounded)
    | .enumData variants =>
        match generate_arms variants with
        | .error e => .error e
        | .ok arms =>
            .ok (implement_enum_debug ast.ident generics_debug_bounded arms)

/-- A runtime receiver value as the generated function observes it: the
field values of a struct, or a variant name with its field values. -/
inductive RecvVal where
  | structVal (fields : List RVal)
  | enumVal (variantName : String) (fields : List RVal)

/-- Execute one emitted match arm on the variant's field values. -/
def runArm (arm : Arm) (rvs : List RVal) (alt : Bool) : Option String :=
  match arm.body with
  | .structBody stmts =>
      (runStmts stmts rvs).map (fun cs => render alt (.strukt arm.variantName (contribsToFields cs)))
  | .tupleBody stmts =>
      (runStmts stmts rvs).map (fun cs => render alt (.tup arm.variantName (contribsToItems cs)))
  | .unitBody => some arm.variantName

/-- Execute a generated implementation on a receiver value in the given
render mode, producing the output text.  Enum dispatch selects the arm
whose pattern matches the value's variant tag. -/
def runImpl (impl : Impl) (rv : RecvVal) (alt : Bool) : Option String :=
  match impl, rv with
  | .namedStructImpl name _ stmts, .structVal rvs =>
      (runStmts stmts rvs).map (fun cs => render alt (.strukt name (contribsToFields cs)))
  | .unnamedStructImpl name _ stmts, .structVal rvs =>
      (runStmts stmts rvs).map (fun cs => render alt (.tup name (contribsToItems cs)))
  | .unitStructImpl name _, .structVal _ => some name
  | .enumImpl _ _ arms, .enumVal vname rvs =>
      match arms.find? (fun a => a.variantName = vname) with
      | some arm => runArm arm rvs alt
      | none => none
  | _, _ => none

/-- Modelled from the spec: the builder entries the host's own built-in
derive produces for a record value — each field's own representation under
its label, in declaration order (§6). -/
def builtinFields : List String → List RVal → DFields
  | l :: ls, r :: rs => .cons l (debugOf r) (builtinFields ls rs)
  | _, _ => .nil

/-- Modelled from the spec: the host's built-in derived representation of
a record value, rendered by the same output builder in the given mode. -/
def builtinRecordRender (alt : Bool) (name : String) (labels : List String)
    (rvs : List RVal) : String :=
  render alt (.strukt name (builtinFields labels rvs))

/-- All attributes occurring anywhere in a derive input (type-level and
field-level), used to state where configuration errors are anchored. -/
def fieldsAttrs : FieldsKind → List Attribute
  | .named fs => (fs.map Prod.snd).flatten
  | .unnamed fs => fs.flatten
  | .unitFields => []

/-- All attributes of a derive input: the type-level ones followed by
every field's, across all variants for enums. -/
def allAttrs (ast : DeriveInput) : List Attribute :=
  ast.attrs ++
    match ast.data with
    | .structData fk => fieldsAttrs fk
    | .enumData vs => (vs.map (fun v => fieldsAttrs v.fields)).flatten

/-- Whether a nested keyed-list entry is one the extraction records: a
name-value meta with a string literal under one of the keys `some`, `ok`,
`err`. -/
def recognizedEntry : NestedMeta → Bool
  | .meta (.nameValue p (.str _)) => p = "some" || p = "ok" || p = "err"
  | _ => false

/-- A field none of whose attributes parses to a `debug_stub` meta takes
the fallback path: value used, contribute the field's own value. -/
theorem extract_value_attr_no_attr (attrs : List Attribute) (name : Option String)
    (h : ∀ a ∈ attrs, parsedDebugStub a = none) :
    extract_value_attr attrs name = .ok (true, .fieldStmt name .own) := by
  induction attrs with
  | nil => rfl
  | cons a rest ih =>
    have ha := h a (List.mem_cons_self a rest)
    simp only [extract_value_attr, ha]
    exact ih (fun b hb => h b (List.mem_cons_of_mem a hb))

/-- A record whose every field has no `debug_stub` annotation generates
exactly the default statements, one per field in order. -/
theorem generate_field_stmts_no_attr (fields : List (String × List Attribute))
    (h : ∀ f ∈ fields, ∀ a ∈ f.2, parsedDebugStub a = none) :
    generate_field_stmts fields =
      .ok (fields.map fun f => .fieldStmt (some f.1) .own) := by
  induction fields with
  | nil => rfl
  | cons f rest ih =>
    obtain ⟨n, attrs⟩ := f
    have h1 : extract_value_attr attrs (some n) = .ok (true, .fieldStmt (some n) .own) :=
      extract_value_attr_no_attr attrs (some n) (h (n, attrs) (List.mem_cons_self _ _))
    have h2 := ih (fun g hg => h g (List.mem_cons_of_mem _ hg))
    simp only [generate_field_stmts, h1, h2, List.map_cons]

/-- Running the default statements on the record's runtime field values
produces exactly the builder entries of the built-in derive. -/
theorem runStmts_own (fields : List (String × List Attribute)) (rvs : List RVal)
    (h : rvs.length = fields.length) :
    ∃ cs, runStmts (fields.map fun f => Stmt.fieldStmt (some f.1) .own) rvs = some cs ∧
      contribsToFields cs = builtinFields (fields.map Prod.fst) rvs := by
  induction fields generalizing rvs with
  | nil =>
    cases rvs with
    | nil => exact ⟨[], rfl, rfl⟩
    | cons r rs => simp at h
  | cons f rest ih =>
    cases rvs with
    | nil => simp at h
    | cons r rs =>
      obtain ⟨cs, h1, h2⟩ := ih rs (by simpa using h)
      refine ⟨(some f.1, debugOf r) :: cs, ?_, ?_⟩
      · simp only [List.map_cons, runStmts, runStmt, evalFieldVal, h1]
        rfl
      · simp only [contribsToFields, builtinFields, List.map_cons, h2, Option.getD_some]

/-- Claim C1: a field with no `debug_stub` annotation (OverrideSpec
`None`) contributes exactly the built-in derive's entry — its own
representation under its label — and a record type all of whose fields are
unannotated renders byte-identically to the host's built-in derive, in
both compact and expanded modes, field-for-field and order-for-order. -/
theorem spec_c1 (name0 : String) (attrs : List Attribute) (gens : List GenericParam)
    (fields : List (String × List Attribute)) (rvs : List RVal) (alt : Bool) (ig : Bool)
    (hig : scanIgnoreGenerics attrs false = .ok ig)
    (hnone : ∀ f ∈ fields, ∀ a ∈ f.2, parsedDebugStub a = none)
    (hlen : rvs.length = fields.length) :
    (∀ (fattrs : List Attribute) (n : Option String) (rv : RVal),
      (∀ a ∈ fattrs, parsedDebugStub a = none) →
      extract_value_attr fattrs n = .ok (true, .fieldStmt n .own) ∧
      runStmt (.fieldStmt n .own) rv = some (n, debugOf rv)) ∧
    ∃ impl,
      expand_derive_serialize ⟨name0, attrs, gens, .structData (.named fields)⟩ = .ok impl ∧
      runImpl impl (.structVal rvs) alt =
        some (builtinRecordRender alt name0 (fields.map Prod.fst) rvs) := by
  constructor
  · intro fattrs n rv hf
    exact ⟨extract_value_attr_no_attr fattrs n hf, rfl⟩
  · obtain ⟨cs, h1, h2⟩ := runStmts_own fields rvs hlen
    refine ⟨implement_named_fields_struct_debug name0
      (if ig then gens else gens.map addDebugBound)
      (fields.map fun f => .fieldStmt (some f.1) .own), ?_, ?_⟩
    · simp only [expand_derive_serialize, hig, generate_field_stmts_no_attr fields hnone]
    · simp only [implement_named_fields_struct_debug, runImpl, h1, builtinRecordRender]
      simp [h2]

/-- Claim C1 witness: a concrete two-field record with no annotations
renders identically to the built-in derive in compact mode. -/
theorem spec_c1_witness :
    ∃ impl,
      expand_derive_serialize
        ⟨"TestStruct", [], [], .structData (.named [("a", []), ("b", [])])⟩ = .ok impl ∧
      runImpl impl (.structVal [.prim (.str "true"), .prim (.str "42")]) false =
        some (builtinRecordRender false "TestStruct" ["a", "b"]
          [.prim (.str "true"), .prim (.str "42")]) :=
  (spec_c1 "TestStruct" [] [] [("a", []), ("b", [])]
    [.prim (.str "true"), .prim (.str "42")] false false rfl (by simp) rfl).2

/-- Claim C3: for a field-level keyed-list annotation, the parser yields
the optional-wrap statement when only `some` is recorded, a result-wrap
statement when `ok` and/or `err` (at least one) is recorded and `some` is
not, and every other combination — `some` mixed with `ok`/`err`, or no
recorded key — is the configuration error with message
"expected `some = _`, `ok = _`, `err = _`, or `ok = _, err = _`". -/
theorem spec_c3 (a : Attribute) (rest : List Attribute) (name : Option String)
    (p : String) (nested : List NestedMeta)
    (ha : parsedDebugStub a = some (.list p nested)) :
    (∀ s, extract_named_value_attrs nested = (none, none, some s) →
      extract_value_attr (a :: rest) name = .ok (true, implement_some_attr s name)) ∧
    (∀ okT errT, extract_named_value_attrs nested = (some okT, some errT, none) →
      extract_value_attr (a :: rest) name = .ok (true, implement_result_attr okT errT name)) ∧
    (∀ okT, extract_named_value_attrs nested = (some okT, none, none) →
      extract_value_attr (a :: rest) name = .ok (true, implement_ok_attr okT name)) ∧
    (∀ errT, extract_named_value_attrs nested = (none, some errT, none) →
      extract_value_attr (a :: rest) name = .ok (true, implement_err_attr errT name)) ∧
    (∀ okE errE sE, extract_named_value_attrs nested = (okE, errE, sE) →
      ((sE.isSome ∧ (okE.isSome ∨ errE.isSome)) ∨ (okE = none ∧ errE = none ∧ sE = none)) →
      extract_value_attr (a :: rest) name =
        .error ⟨a.loc, "expected `some = _`, `ok = _`, `err = _`, or `ok = _, err = _`"⟩) := by
  refine ⟨?_, ?_, ?_, ?_, ?_⟩
  · intro s h
    simp only [extract_value_attr, ha, h]
  · intro okT errT h
    simp only [extract_value_attr, ha, h]
  · intro okT h
    simp only [extract_value_attr, ha, h]
  · intro errT h
    simp only [extract_value_attr, ha, h]
  · intro okE errE sE h hbad
    simp only [extract_value_attr, ha, h]
    rcases hbad with ⟨hs, hoe⟩ | ⟨ho, he, hs⟩
    · rcases Option.isSome_iff_exists.mp hs with ⟨s, rfl⟩
      rcases hoe with ho | he
      · rcases Option.isSome_iff_exists.mp ho with ⟨o, rfl⟩
        cases errE <;> rfl
      · rcases Option.isSome_iff_exists.mp he with ⟨e, rfl⟩
        cases okE <;> rfl
    · subst ho he hs
      rfl

/-- Claim C3 witness: a concrete `#[debug_stub(some = "X")]` annotation
yields the optional-wrap statement. -/
theorem spec_c3_witness :
    extract_value_attr
      [⟨3, some (.list "debug_stub" [.meta (.nameValue "some" (.str "X"))])⟩]
      (some "f") = .ok (true, implement_some_attr "X" (some "f")) :=
  (spec_c3 ⟨3, some (.list "debug_stub" [.meta (.nameValue "some" (.str "X"))])⟩
    [] (some "f") "debug_stub" [.meta (.nameValue "some" (.str "X"))] rfl).1 "X" rfl

/-- Claim C4: a field annotated `#[debug_stub = "X"]` parses to the
replacement statement with the value-used flag `false`; executing that
statement contributes the text `X` under the field's label for every
runtime value (so any two receivers differing only in that field render
identically), and `X` is rendered verbatim, with no extra quoting, in both
compact and expanded modes. -/
theorem spec_c4 (X : String) (name : Option String) :
    (∀ (a : Attribute) (rest : List Attribute) (p : String),
      parsedDebugStub a = some (.nameValue p (.str X)) →
      extract_value_attr (a :: rest) name = .ok (false, implement_replace_attr name X)) ∧
    (∀ rv, runStmt (implement_replace_attr name X) rv = some (name, .str X)) ∧
    (∀ rv1 rv2, runStmt (implement_replace_attr name X) rv1 =
      runStmt (implement_replace_attr name X) rv2) ∧
    (∀ alt, render alt (.str X) = X) := by
  refine ⟨?_, ?_, ?_, ?_⟩
  · intro a rest p ha
    simp only [extract_value_attr, ha]
  · intro rv
    rfl
  · intro rv1 rv2
    rfl
  · intro alt
    rfl

/-- Claim C4 witness: a concrete `#[debug_stub = "REPL"]` annotation on
field `b` yields the replacement statement with value-used flag `false`. -/
theorem spec_c4_witness :
    extract_value_attr [⟨1, some (.nameValue "debug_stub" (.str "REPL"))⟩] (some "b") =
      .ok (false, implement_replace_attr (some "b") "REPL") :=
  (spec_c4 "REPL" (some "b")).1 ⟨1, some (.nameValue "debug_stub" (.str "REPL"))⟩
    [] "debug_stub" rfl

/-- Claim C5: the optional-wrap statement for `#[debug_stub(some = "X")]`
maps a present value to the `Some(X)` contribution and an absent value to
the literal `None`; these are the only two outcomes over optional-shaped
values, exactly one per invocation, and they render as `Some(X)` and
`None`. -/
theorem spec_c5 (X : String) (name : Option String) :
    (∀ v, runStmt (implement_some_attr X name) (.optSome v) =
      some (name, .tup "Some" (.cons (.str X) .nil))) ∧
    runStmt (implement_some_attr X name) .optNone = some (name, .str "None") ∧
    render false (.tup "Some" (.cons (.str X) .nil)) = "Some(" ++ X ++ ")" ∧
    (∀ alt, render alt (.str "None") = "None") := by
  refine ⟨fun v => rfl, rfl, ?_, fun alt => rfl⟩
  simp [render, renderItems]

/-- Claim C6: the result-wrap statement for `#[debug_stub(ok = "X")]`
(only `okText` declared) maps a success value to the `Ok(X)` contribution
and a failure value to `Err(e)` where `e` is the failure value's own
representation — the override does not apply to the failure branch. -/
theorem spec_c6 (okT : String) (name : Option String) :
    (∀ v, runStmt (implement_ok_attr okT name) (.resOk v) =
      some (name, .tup "Ok" (.cons (.str okT) .nil))) ∧
    (∀ e, runStmt (implement_ok_attr okT name) (.resErr e) =
      some (name, .tup "Err" (.cons (debugOf e) .nil))) ∧
    render false (.tup "Ok" (.cons (.str okT) .nil)) = "Ok(" ++ okT ++ ")" ∧
    (∀ e, render false (.tup "Err" (.cons (debugOf e) .nil)) =
      "Err(" ++ render false (debugOf e) ++ ")") := by
  refine ⟨fun v => rfl, fun e => rfl, ?_, fun e => ?_⟩
  · simp [render, renderItems]
  · simp [render, renderItems]

/-- Claim C8: every zero-field type or variant renders as its bare name,
identically in compact and expanded modes: unit structs
(`f.write_str(name)`), record and tuple structs with an empty field list
(builders with no contributions), and enum variants of all three kinds —
including a labeled variant written `V {}`, whose arm carries an empty
pattern and an empty statement list. -/
theorem spec_c8 :
    (∀ (name : String) (gens : List GenericParam) (rvs : List RVal) (alt : Bool),
      runImpl (implement_unit_struct_debug name gens) (.structVal rvs) alt = some name) ∧
    (generate_field_stmts [] = .ok [] ∧
      ∀ (name : String) (gens : List GenericParam) (alt : Bool),
        runImpl (implement_named_fields_struct_debug name gens []) (.structVal []) alt =
          some name) ∧
    (generate_tuple_field_stmts [] = .ok [] ∧
      ∀ (name : String) (gens : List GenericParam) (alt : Bool),
        runImpl (implement_unnamed_fields_struct_debug name gens []) (.structVal []) alt =
          some name) ∧
    (∀ V : String,
      generate_arm ⟨V, .named []⟩ = .ok ⟨V, [], .structBody []⟩ ∧
      generate_arm ⟨V, .unnamed []⟩ = .ok ⟨V, [], .tupleBody []⟩ ∧
      generate_arm ⟨V, .unitFields⟩ = .ok ⟨V, [], .unitBody⟩ ∧
      (∀ alt, runArm ⟨V, [], .structBody []⟩ [] alt = some V) ∧
      (∀ alt, runArm ⟨V, [], .tupleBody []⟩ [] alt = some V) ∧
      (∀ (alt : Bool) (rvs : List RVal), runArm ⟨V, [], .unitBody⟩ rvs alt = some V)) := by
  refine ⟨fun name gens rvs alt => rfl,
    ⟨rfl, fun name gens alt => rfl⟩,
    ⟨rfl, fun name gens alt => rfl⟩,
    fun V => ⟨rfl, rfl, rfl, fun alt => rfl, fun alt => rfl, fun alt rvs => rfl⟩⟩

/-- An unrecognized keyed-list entry leaves the extraction accumulator
unchanged. -/
theorem recordNamedValue_skip (nm : NestedMeta) (h : recognizedEntry nm = false)
    (acc : Option String × Option String × Option String) :
    recordNamedValue acc nm = acc := by
  cases nm with
  | lit l => rfl
  | meta m =>
    cases m with
    | path p => rfl
    | list p nested => rfl
    | nameValue p l =>
      cases l with
      | str s =>
        simp only [recognizedEntry, Bool.or_eq_false_iff, decide_eq_false_iff_not] at h
        simp only [recordNamedValue, if_neg h.1.1, if_neg h.1.2, if_neg h.2]
      | int n => rfl
      | boolLit b => rfl

/-- Claim C10: within one keyed-list annotation, entries whose key is not
`some`/`ok`/`err` or whose value is not a string literal are skipped
silently (removing them does not change the extraction, and no error is
raised), and a repeated recognized key is resolved last-occurrence-wins;
in particular `(some = "X", other = "Y")` parses to the optional-wrap
statement for `"X"` with no error, and `(ok = "A", ok = "B")` to the
ok-wrap statement for `"B"`. -/
theorem spec_c10 :
    (∀ (l1 l2 : List NestedMeta) (nm : NestedMeta), recognizedEntry nm = false →
      extract_named_value_attrs (l1 ++ nm :: l2) = extract_named_value_attrs (l1 ++ l2)) ∧
    (∀ (l : List NestedMeta) (s : String),
      (extract_named_value_attrs (l ++ [.meta (.nameValue "ok" (.str s))])).1 = some s ∧
      (extract_named_value_attrs (l ++ [.meta (.nameValue "err" (.str s))])).2.1 = some s ∧
      (extract_named_value_attrs (l ++ [.meta (.nameValue "some" (.str s))])).2.2 = some s) ∧
    (∀ (loc : Nat) (name : Option String),
      extract_value_attr
        [⟨loc, some (.list "debug_stub"
          [.meta (.nameValue "some" (.str "X")), .meta (.nameValue "other" (.str "Y"))])⟩]
        name = .ok (true, implement_some_attr "X" name) ∧
      extract_value_attr
        [⟨loc, some (.list "debug_stub"
          [.meta (.nameValue "ok" (.str "A")), .meta (.nameValue "ok" (.str "B"))])⟩]
        name = .ok (true, implement_ok_attr "B" name)) := by
  refine ⟨?_, ?_, ?_⟩
  · intro l1 l2 nm h
    simp only [extract_named_value_attrs, List.foldl_append, List.foldl_cons,
      recordNamedValue_skip nm h]
  · intro l s
    refine ⟨?_, ?_, ?_⟩ <;>
      simp [extract_named_value_attrs, List.foldl_append, recordNamedValue]
  · intro loc name
    exact ⟨rfl, rfl⟩

/-- Claim C10 witness: dropping the unrecognized entry `other = "Y"` from
a concrete keyed list leaves the extraction unchanged. -/
theorem spec_c10_witness :
    extract_named_value_attrs
      [.meta (.nameValue "some" (.str "X")), .meta (.nameValue "other" (.str "Y"))] =
    extract_named_value_attrs [.meta (.nameValue "some" (.str "X"))] :=
  spec_c10.1 [.meta (.nameValue "some" (.str "X"))] []
    (.meta (.nameValue "other" (.str "Y"))) rfl

/-- A generated arm is named after its variant. -/
theorem generate_arm_name (v : Variant) (arm : Arm) (h : generate_arm v = .ok arm) :
    arm.variantName = v.name := by
  cases hf : v.fields with
  | named fs =>
    rw [generate_arm, hf] at h
    dsimp only at h
    cases hg : generate_enum_variant_fields (fs.map fun f => (f.1, f.2, some f.1)) with
    | error e => rw [hg] at h; exact absurd h (by simp)
    | ok ps =>
      obtain ⟨pats, stmts⟩ := ps
      rw [hg] at h
      cases h
      rfl
  | unnamed fs =>
    rw [generate_arm, hf] at h
    dsimp only at h
    cases hg : generate_enum_variant_fields
        (fs.enum.map fun p => ("tuple_" ++ toString p.1, p.2, none)) with
    | error e => rw [hg] at h; exact absurd h (by simp)
    | ok ps =>
      obtain ⟨pats, stmts⟩ := ps
      rw [hg] at h
      cases h
      rfl
  | unitFields =>
    rw [generate_arm, hf] at h
    cases h
    rfl

/-- Arms are generated one per variant, in order. -/
theorem generate_arms_get (variants : List Variant) (arms : List Arm)
    (h : generate_arms variants = .ok arms) :
    arms.length = variants.length ∧
    ∀ i (h1 : i < arms.length) (h2 : i < variants.length),
      generate_arm (variants.get ⟨i, h2⟩) = .ok (arms.get ⟨i, h1⟩) := by
  induction variants generalizing arms with
  | nil =>
    cases h
    exact ⟨rfl, fun i h1 h2 => absurd h2 (by simp)⟩
  | cons v rest ih =>
    rw [generate_arms] at h
    cases ha : generate_arm v with
    | error e => rw [ha] at h; exact absurd h (by simp)
    | ok arm =>
      rw [ha] at h
      cases hr : generate_arms rest with
      | error e => rw [hr] at h; exact absurd h (by simp)
      | ok arms2 =>
        rw [hr] at h
        cases h
        obtain ⟨hlen, hget⟩ := ih arms2 hr
        refine ⟨by simp [hlen], ?_⟩
        intro i h1 h2
        cases i with
        | zero => exact ha
        | succ j => exact hget j (by simpa using h1) (by simpa using h2)

/-- The generated arm list carries exactly the variant names, in order. -/
theorem generate_arms_names (variants : List Variant) (arms : List Arm)
    (h : generate_arms variants = .ok arms) :
    arms.map Arm.variantName = variants.map Variant.name := by
  induction variants generalizing arms with
  | nil => cases h; rfl
  | cons v rest ih =>
    rw [generate_arms] at h
    cases ha : generate_arm v with
    | error e => rw [ha] at h; exact absurd h (by simp)
    | ok arm =>
      rw [ha] at h
      cases hr : generate_arms rest with
      | error e => rw [hr] at h; exact absurd h (by simp)
      | ok arms2 =>
        rw [hr] at h
        cases h
        simp [generate_arm_name v arm ha, ih arms2 hr]

/-- With pairwise-distinct arm names, pattern dispatch on an arm's own
name selects exactly that arm. -/
theorem find_arm_of_nodup (arms : List Arm) (nodup : (arms.map Arm.variantName).Nodup) :
    ∀ (i : Nat) (h1 : i < arms.length),
      arms.find? (fun a => a.variantName = (arms.get ⟨i, h1⟩).variantName) =
        some (arms.get ⟨i, h1⟩) := by
  induction arms with
  | nil => intro i h1; exact absurd h1 (by simp)
  | cons a as ih =>
    intro i h1
    cases i with
    | zero => simp [List.find?_cons]
    | succ j =>
      have h2 : j < as.length := by simpa using h1
      have hmem : (as.get ⟨j, h2⟩).variantName ∈ as.map Arm.variantName :=
        List.mem_map_of_mem _ (as.get_mem j h2)
      have hne : (a.variantName = (as.get ⟨j, h2⟩).variantName) = False := by
        simp only [eq_iff_iff, iff_false]
        intro he
        exact (List.nodup_cons.mp nodup).1 (he ▸ hmem)
      have : ((a :: as).get ⟨j + 1, h1⟩) = as.get ⟨j, h2⟩ := rfl
      rw [this, List.find?_cons]
      simp only [hne, decide_False]
      exact ih (List.nodup_cons.mp nodup).2 j h2

/-- Claim C7: the impl generated for a sum type is one exhaustive dispatch
with no default arm — the arm list has exactly one arm per declared
variant, in declaration order, each named after its variant — and, the
variant names being distinct, rendering a value of variant V always
selects V's arm. -/
theorem spec_c7 (name0 : String) (gens : List GenericParam)
    (variants : List Variant) (arms : List Arm)
    (h : generate_arms variants = .ok arms) :
    arms.length = variants.length ∧
    (∀ i (h1 : i < arms.length) (h2 : i < variants.length),
      (arms.get ⟨i, h1⟩).variantName = (variants.get ⟨i, h2⟩).name ∧
      generate_arm (variants.get ⟨i, h2⟩) = .ok (arms.get ⟨i, h1⟩)) ∧
    ((variants.map Variant.name).Nodup →
      ∀ i (h1 : i < arms.length) (h2 : i < variants.length) (rvs : List RVal) (alt : Bool),
        runImpl (implement_enum_debug name0 gens arms)
          (.enumVal (variants.get ⟨i, h2⟩).name rvs) alt =
          runArm (arms.get ⟨i, h1⟩) rvs alt) := by
  obtain ⟨hlen, hget⟩ := generate_arms_get variants arms h
  have hnames : ∀ i (h1 : i < arms.length) (h2 : i < variants.length),
      (arms.get ⟨i, h1⟩).variantName = (variants.get ⟨i, h2⟩).name :=
    fun i h1 h2 => generate_arm_name _ _ (hget i h1 h2)
  refine ⟨hlen, fun i h1 h2 => ⟨hnames i h1 h2, hget i h1 h2⟩, ?_⟩
  intro nodup i h1 h2 rvs alt
  have nodup2 : (arms.map Arm.variantName).Nodup := by
    rw [generate_arms_names variants arms h]; exact nodup
  have hfind := find_arm_of_nodup arms nodup2 i h1
  rw [hnames i h1 h2] at hfind
  simp only [runImpl, implement_enum_debug, hfind]

/-- Claim C7 witness: for a concrete two-variant enum, rendering a value
of the second variant selects exactly the second generated arm. -/
theorem spec_c7_witness :
    runImpl (implement_enum_debug "TestEnum" []
        [⟨"VariantA", [], .unitBody⟩, ⟨"VariantB", [], .unitBody⟩])
      (.enumVal "VariantB" []) false =
    runArm ⟨"VariantB", [], .unitBody⟩ [] false :=
  (spec_c7 "TestEnum" [] [⟨"VariantA", .unitFields⟩, ⟨"VariantB", .unitFields⟩]
    [⟨"VariantA", [], .unitBody⟩, ⟨"VariantB", [], .unitBody⟩] rfl).2.2
    (by decide) 1 (by decide) (by decide) [] false

/-- Claim C9: when the `ignore_generics` flag is unset the generated impl
carries the input generics with a `::core::fmt::Debug` bound pushed onto
every type parameter — and onto nothing else: lifetime and const
parameters pass through unchanged; when the flag is set the generics pass
through entirely unchanged. -/
theorem spec_c9 (ast : DeriveInput) (impl : Impl)
    (h : expand_derive_serialize ast = .ok impl) :
    ∃ ig, scanIgnoreGenerics ast.attrs false = .ok ig ∧
      Impl.genericsOf impl = (if ig then ast.generics else ast.generics.map addDebugBound) ∧
      (∀ n bs, addDebugBound (.typeParam n bs) = .typeParam n (bs ++ ["::core::fmt::Debug"])) ∧
      (∀ n, addDebugBound (.lifetimeParam n) = .lifetimeParam n) ∧
      (∀ n, addDebugBound (.constParam n) = .constParam n) := by
  rw [expand_derive_serialize] at h
  cases hs : scanIgnoreGenerics ast.attrs false with
  | error e => rw [hs] at h; exact absurd h (by simp)
  | ok ig =>
    rw [hs] at h
    dsimp only at h
    refine ⟨ig, rfl, ?_, fun n bs => rfl, fun n => rfl, fun n => rfl⟩
    cases hd : ast.data with
    | structData fk =>
      rw [hd] at h
      cases fk with
      | named fields =>
        dsimp only at h
        cases hg : generate_field_stmts fields with
        | error e => rw [hg] at h; exact absurd h (by simp)
        | ok stmts => rw [hg] at h; cases h; rfl
      | unnamed fields =>
        dsimp only at h
        cases hg : generate_tuple_field_stmts fields with
        | error e => rw [hg] at h; exact absurd h (by simp)
        | ok stmts => rw [hg] at h; cases h; rfl
      | unitFields => cases h; rfl
    | enumData variants =>
      rw [hd] at h
      dsimp only at h
      cases hg : generate_arms variants with
      | error e => rw [hg] at h; exact absurd h (by simp)
      | ok arms => rw [hg] at h; cases h; rfl

/-- Claim C9 witness: a concrete generic tuple struct without
`ignore_generics` gets the Debug bound pushed onto its type parameter. -/
theorem spec_c9_witness :
    ∃ ig, scanIgnoreGenerics ([] : List Attribute) false = .ok ig ∧
      Impl.genericsOf (implement_unnamed_fields_struct_debug "A"
          [.typeParam "T" ["::core::fmt::Debug"]] [.fieldStmt none .own]) =
        (if ig then [GenericParam.typeParam "T" []]
         else [GenericParam.typeParam "T" []].map addDebugBound) ∧
      (∀ n bs, addDebugBound (.typeParam n bs) = .typeParam n (bs ++ ["::core::fmt::Debug"])) ∧
      (∀ n, addDebugBound (.lifetimeParam n) = .lifetimeParam n) ∧
      (∀ n, addDebugBound (.constParam n) = .constParam n) :=
  spec_c9 ⟨"A", [], [.typeParam "T" []], .structData (.unnamed [[]])⟩
    (implement_unnamed_fields_struct_debug "A"
      [.typeParam "T" ["::core::fmt::Debug"]] [.fieldStmt none .own]) rfl

/-- A failing type-level list scan produces exactly the type-level error
at the scanned attribute's location. -/
theorem typeLevelScan_error (loc : Nat) (nested : List NestedMeta) (ig : Bool)
    (e : ConfigError) (h : typeLevelScan loc nested ig = .error e) :
    e = ⟨loc, "expected `ignore_generics`"⟩ := by
  induction nested generalizing ig with
  | nil => exact absurd h (by simp [typeLevelScan])
  | cons nm rest ih =>
    cases nm with
    | meta m =>
      rw [typeLevelScan] at h
      by_cases hp : m.pathOf = "ignore_generics"
      · rw [if_pos hp] at h
        exact ih _ h
      · rw [if_neg hp] at h
        simp only [Except.error.injEq] at h
        exact h.symm
    | lit l =>
      rw [typeLevelScan] at h
      simp only [Except.error.injEq] at h
      exact h.symm

/-- A failing `ignore_generics` scan is anchored at one of the scanned
`debug_stub` attributes and carries the type-level message. -/
theorem scanIgnoreGenerics_error (attrs : List Attribute) (ig : Bool) (e : ConfigError)
    (h : scanIgnoreGenerics attrs ig = .error e) :
    ∃ a ∈ attrs, (parsedDebugStub a).isSome ∧ e.loc = a.loc ∧
      e.msg = "expected `ignore_generics`" := by
  induction attrs generalizing ig with
  | nil => exact absurd h (by simp [scanIgnoreGenerics])
  | cons a rest ih =>
    rw [scanIgnoreGenerics] at h
    cases hp : parsedDebugStub a with
    | none =>
      rw [hp] at h
      obtain ⟨b, hb, hrest⟩ := ih _ h
      exact ⟨b, List.mem_cons_of_mem _ hb, hrest⟩
    | some m =>
      rw [hp] at h
      cases m with
      | path p =>
        dsimp only at h
        simp only [Except.error.injEq] at h
        exact ⟨a, List.mem_cons_self _ _, by simp [hp], by rw [← h], by rw [← h]⟩
      | nameValue p l =>
        dsimp only at h
        simp only [Except.error.injEq] at h
        exact ⟨a, List.mem_cons_self _ _, by simp [hp], by rw [← h], by rw [← h]⟩
      | list p nested =>
        dsimp only at h
        cases ht : typeLevelScan a.loc nested ig with
        | error e2 =>
          rw [ht] at h
          simp only [Except.error.injEq] at h
          have he2 := typeLevelScan_error a.loc nested ig e2 ht
          subst h
          rw [he2]
          exact ⟨a, List.mem_cons_self _ _, by simp [hp], rfl, rfl⟩
        | ok ig2 =>
          rw [ht] at h
          obtain ⟨b, hb, hrest⟩ := ih _ h
          exact ⟨b, List.mem_cons_of_mem _ hb, hrest⟩

/-- A failing field-level extraction is anchored at one of the field's
`debug_stub` attributes and carries one of the three field-level
messages. -/
theorem extract_value_attr_error (attrs : List Attribute) (name : Option String)
    (e : ConfigError) (h : extract_value_attr attrs name = .error e) :
    ∃ a ∈ attrs, (parsedDebugStub a).isSome ∧ e.loc = a.loc ∧
      (e.msg = "expected `List` or `NameValue`" ∨
       e.msg = "expected `some = _`, `ok = _`, `err = _`, or `ok = _, err = _`" ∨
       e.msg = "expected string literal") := by
  induction attrs with
  | nil => exact absurd h (by simp [extract_value_attr])
  | cons a rest ih =>
    rw [extract_value_attr] at h
    cases hp : parsedDebugStub a with
    | none =>
      rw [hp] at h
      obtain ⟨b, hb, hrest⟩ := ih h
      exact ⟨b, List.mem_cons_of_mem _ hb, hrest⟩
    | some m =>
      rw [hp] at h
      cases m with
      | path p =>
        dsimp only at h
        simp only [Except.error.injEq] at h
        subst h
        exact ⟨a, List.mem_cons_self _ _, by simp [hp], rfl, Or.inl rfl⟩
      | list p nested =>
        dsimp only at h
        rcases hx : extract_named_value_attrs nested with ⟨okE, rest2⟩
        rcases rest2 with ⟨errE, someE⟩
        rw [hx] at h
        cases okE <;> cases errE <;> cases someE <;> dsimp only at h <;>
          first
          | exact Except.noConfusion h
          | (injection h with h2
             subst h2
             exact ⟨a, List.mem_cons_self _ _, by simp [hp], rfl, Or.inr (Or.inl rfl)⟩)
      | nameValue p l =>
        dsimp only at h
        cases l with
        | str s => exact absurd h (by simp)
        | int n =>
          simp only [Except.error.injEq] at h
          subst h
          exact ⟨a, List.mem_cons_self _ _, by simp [hp], rfl, Or.inr (Or.inr rfl)⟩
        | boolLit b =>
          simp only [Except.error.injEq] at h
          subst h
          exact ⟨a, List.mem_cons_self _ _, by simp [hp], rfl, Or.inr (Or.inr rfl)⟩

/-- The three field-level messages, as a reusable abbreviation for the
error lemmas. -/
def fieldLevelMsg (e : ConfigError) : Prop :=
  e.msg = "expected `List` or `NameValue`" ∨
  e.msg = "expected `some = _`, `ok = _`, `err = _`, or `ok = _, err = _`" ∨
  e.msg = "expected string literal"

/-- A failing named-fields generation is anchored at one of the fields'
attributes and carries a field-level message. -/
theorem generate_field_stmts_error (fields : List (String × List Attribute))
    (e : ConfigError) (h : generate_field_stmts fields = .error e) :
    ∃ a ∈ (fields.map Prod.snd).flatten,
      (parsedDebugStub a).isSome ∧ e.loc = a.loc ∧ fieldLevelMsg e := by
  induction fields with
  | nil => exact absurd h (by simp [generate_field_stmts])
  | cons f rest ih =>
    obtain ⟨n, attrs⟩ := f
    rw [generate_field_stmts] at h
    cases hx : extract_value_attr attrs (some n) with
    | error e2 =>
      rw [hx] at h
      injection h with h2
      subst h2
      obtain ⟨a, ha, hrest⟩ := extract_value_attr_error attrs (some n) e2 hx
      refine ⟨a, ?_, hrest⟩
      simp only [List.map_cons, List.flatten_cons]
      exact List.mem_append_left _ ha
    | ok st =>
      obtain ⟨used, stmt⟩ := st
      rw [hx] at h
      dsimp only at h
      cases hr : generate_field_stmts rest with
      | error e2 =>
        rw [hr] at h
        injection h with h2
        subst h2
        obtain ⟨a, ha, hrest⟩ := ih hr
        refine ⟨a, ?_, hrest⟩
        simp only [List.map_cons, List.flatten_cons]
        exact List.mem_append_right _ ha
      | ok stmts =>
        rw [hr] at h
        exact Except.noConfusion h

/-- A failing tuple-fields generation is anchored at one of the fields'
attributes and carries a field-level message. -/
theorem generate_tuple_field_stmts_error (fields : List (List Attribute))
    (e : ConfigError) (h : generate_tuple_field_stmts fields = .error e) :
    ∃ a ∈ fields.flatten,
      (parsedDebugStub a).isSome ∧ e.loc = a.loc ∧ fieldLevelMsg e := by
  induction fields with
  | nil => exact absurd h (by simp [generate_tuple_field_stmts])
  | cons attrs rest ih =>
    rw [generate_tuple_field_stmts] at h
    cases hx : extract_value_attr attrs none with
    | error e2 =>
      rw [hx] at h
      injection h with h2
      subst h2
      obtain ⟨a, ha, hrest⟩ := extract_value_attr_error attrs none e2 hx
      refine ⟨a, ?_, hrest⟩
      simp only [List.flatten_cons]
      exact List.mem_append_left _ ha
    | ok st =>
      obtain ⟨used, stmt⟩ := st
      rw [hx] at h
      dsimp only at h
      cases hr : generate_tuple_field_stmts rest with
      | error e2 =>
        rw [hr] at h
        injection h with h2
        subst h2
        obtain ⟨a, ha, hrest⟩ := ih hr
        refine ⟨a, ?_, hrest⟩
        simp only [List.flatten_cons]
        exact List.mem_append_right _ ha
      | ok stmts =>
        rw [hr] at h
        exact Except.noConfusion h

/-- A failing variant-fields pass is anchored at one of the variant
fields' attributes and carries a field-level message. -/
theorem generate_enum_variant_fields_core_error
    (fields : List (String × List Attribute × Option String))
    (e : ConfigError) (h : generate_enum_variant_fields_core fields = .error e) :
    ∃ a ∈ (fields.map (fun f => f.2.1)).flatten,
      (parsedDebugStub a).isSome ∧ e.loc = a.loc ∧ fieldLevelMsg e := by
  induction fields with
  | nil => exact absurd h (by simp [generate_enum_variant_fields_core])
  | cons f rest ih =>
    obtain ⟨ident, attrs, name⟩ := f
    rw [generate_enum_variant_fields_core] at h
    cases hx : extract_value_attr attrs name with
    | error e2 =>
      rw [hx] at h
      injection h with h2
      subst h2
      obtain ⟨a, ha, hrest⟩ := extract_value_attr_error attrs name e2 hx
      refine ⟨a, ?_, hrest⟩
      simp only [List.map_cons, List.flatten_cons]
      exact List.mem_append_left _ ha
    | ok st =>
      obtain ⟨used, stmt⟩ := st
      rw [hx] at h
      dsimp only at h
      cases hr : generate_enum_variant_fields_core rest with
      | error e2 =>
        rw [hr] at h
        injection h with h2
        subst h2
        obtain ⟨a, ha, hrest⟩ := ih hr
        refine ⟨a, ?_, hrest⟩
        simp only [List.map_cons, List.flatten_cons]
        exact List.mem_append_right _ ha
      | ok prs =>
        obtain ⟨pats, stmts, unused⟩ := prs
        rw [hr] at h
        dsimp only at h
        split at h <;> first
          | exact Except.noConfusion h
          | (split at h <;> exact Except.noConfusion h)

/-- The wrapper inherits the anchoring of the variant-fields pass. -/
theorem generate_enum_variant_fields_error
    (fields : List (String × List Attribute × Option String))
    (e : ConfigError) (h : generate_enum_variant_fields fields = .error e) :
    ∃ a ∈ (fields.map (fun f => f.2.1)).flatten,
      (parsedDebugStub a).isSome ∧ e.loc = a.loc ∧ fieldLevelMsg e := by
  rw [generate_enum_variant_fields] at h
  cases hc : generate_enum_variant_fields_core fields with
  | error e2 =>
    rw [hc] at h
    injection h with h2
    subst h2
    exact generate_enum_variant_fields_core_error fields e2 hc
  | ok prs =>
    obtain ⟨pats, stmts, unused⟩ := prs
    rw [hc] at h
    exact Except.noConfusion h

/-- A failing arm generation is anchored at one of the variant's field
attributes and carries a field-level message. -/
theorem generate_arm_error (v : Variant) (e : ConfigError)
    (h : generate_arm v = .error e) :
    ∃ a ∈ fieldsAttrs v.fields,
      (parsedDebugStub a).isSome ∧ e.loc = a.loc ∧ fieldLevelMsg e := by
  cases hf : v.fields with
  | named fs =>
    rw [generate_arm, hf] at h
    dsimp only at h
    cases hg : generate_enum_variant_fields (fs.map fun f => (f.1, f.2, some f.1)) with
    | error e2 =>
      rw [hg] at h
      injection h with h2
      subst h2
      obtain ⟨a, ha, hrest⟩ := generate_enum_variant_fields_error _ e2 hg
      refine ⟨a, ?_, hrest⟩
      have hl : ((fs.map fun f => (f.1, f.2, some f.1)).map fun f => f.2.1) =
          fs.map Prod.snd := by
        rw [List.map_map]
        rfl
      rw [hl] at ha
      exact ha
    | ok prs =>
      obtain ⟨pats, stmts⟩ := prs
      rw [hg] at h
      exact Except.noConfusion h
  | unnamed fs =>
    rw [generate_arm, hf] at h
    dsimp only at h
    cases hg : generate_enum_variant_fields
        (fs.enum.map fun p => ("tuple_" ++ toString p.1, p.2, none)) with
    | error e2 =>
      rw [hg] at h
      injection h with h2
      subst h2
      obtain ⟨a, ha, hrest⟩ := generate_enum_variant_fields_error _ e2 hg
      refine ⟨a, ?_, hrest⟩
      have hl : ((fs.enum.map fun p => ("tuple_" ++ toString p.1, p.2,
          (none : Option String))).map fun f => f.2.1) = fs := by
        rw [List.map_map]
        exact List.enum_map_snd fs
      rw [hl] at ha
      exact ha
    | ok prs =>
      obtain ⟨pats, stmts⟩ := prs
      rw [hg] at h
      exact Except.noConfusion h
  | unitFields =>
    rw [generate_arm, hf] at h
    exact Except.noConfusion h

/-- A failing arm-list generation is anchored at one of the variants'
field attributes and carries a field-level message. -/
theorem generate_arms_error (variants : List Variant) (e : ConfigError)
    (h : generate_arms variants = .error e) :
    ∃ a ∈ (variants.map (fun v => fieldsAttrs v.fields)).flatten,
      (parsedDebugStub a).isSome ∧ e.loc = a.loc ∧ fieldLevelMsg e := by
  induction variants with
  | nil => exact absurd h (by simp [generate_arms])
  | cons v rest ih =>
    rw [generate_arms] at h
    cases ha : generate_arm v with
    | error e2 =>
      rw [ha] at h
      injection h with h2
      subst h2
      obtain ⟨a, hm, hrest⟩ := generate_arm_error v e2 ha
      refine ⟨a, ?_, hrest⟩
      simp only [List.map_cons, List.flatten_cons]
      exact List.mem_append_left _ hm
    | ok arm =>
      rw [ha] at h
      dsimp only at h
      cases hr : generate_arms rest with
      | error e2 =>
        rw [hr] at h
        injection h with h2
        subst h2
        obtain ⟨a, hm, hrest⟩ := ih hr
        refine ⟨a, ?_, hrest⟩
        simp only [List.map_cons, List.flatten_cons]
        exact List.mem_append_right _ hm
      | ok arms =>
        rw [hr] at h
        exact Except.noConfusion h

/-- Claim C2, amended: every configuration error the generator raises
carries one of four messages — the three of section 4.1 plus the
field-level "expected string literal" for a name-value annotation whose
value is not a string literal — and is anchored at the location of a
`debug_stub` annotation of the failing type; an error excludes any emitted
impl (the expansion result is either one impl or one error), and
expansion is a pure function of the single type's description, so other
types are unaffected. -/
theorem spec_c2_amended (ast : DeriveInput) (e : ConfigError)
    (h : expand_derive_serialize ast = .error e) :
    (e.msg = "expected `ignore_generics`" ∨
     e.msg = "expected `List` or `NameValue`" ∨
     e.msg = "expected `some = _`, `ok = _`, `err = _`, or `ok = _, err = _`" ∨
     e.msg = "expected string literal") ∧
    ∃ a ∈ allAttrs ast, (parsedDebugStub a).isSome ∧ e.loc = a.loc := by
  rw [expand_derive_serialize] at h
  cases hs : scanIgnoreGenerics ast.attrs false with
  | error e2 =>
    rw [hs] at h
    injection h with h2
    subst h2
    obtain ⟨a, ha, hsome, hloc, hmsg⟩ := scanIgnoreGenerics_error ast.attrs false e2 hs
    exact ⟨Or.inl hmsg, a, List.mem_append_left _ ha, hsome, hloc⟩
  | ok ig =>
    rw [hs] at h
    dsimp only at h
    cases hd : ast.data with
    | structData fk =>
      rw [hd] at h
      cases fk with
      | named fields =>
        dsimp only at h
        cases hg : generate_field_stmts fields with
        | error e2 =>
          rw [hg] at h
          injection h with h2
          subst h2
          obtain ⟨a, ha, hsome, hloc, hmsg⟩ := generate_field_stmts_error fields e2 hg
          refine ⟨?_, a, ?_, hsome, hloc⟩
          · rcases hmsg with m | m | m
            · exact Or.inr (Or.inl m)
            · exact Or.inr (Or.inr (Or.inl m))
            · exact Or.inr (Or.inr (Or.inr m))
          · refine List.mem_append_right _ ?_
            rw [hd]
            exact ha
        | ok stmts =>
          rw [hg] at h
          exact Except.noConfusion h
      | unnamed fields =>
        dsimp only at h
        cases hg : generate_tuple_field_stmts fields with
        | error e2 =>
          rw [hg] at h
          injection h with h2
          subst h2
          obtain ⟨a, ha, hsome, hloc, hmsg⟩ := generate_tuple_field_stmts_error fields e2 hg
          refine ⟨?_, a, ?_, hsome, hloc⟩
          · rcases hmsg with m | m | m
            · exact Or.inr (Or.inl m)
            · exact Or.inr (Or.inr (Or.inl m))
            · exact Or.inr (Or.inr (Or.inr m))
          · refine List.mem_append_right _ ?_
            rw [hd]
            exact ha
        | ok stmts =>
          rw [hg] at h
          exact Except.noConfusion h
      | unitFields =>
        dsimp only at h
        exact Except.noConfusion h
    | enumData variants =>
      rw [hd] at h
      dsimp only at h
      cases hg : generate_arms variants with
      | error e2 =>
        rw [hg] at h
        injection h with h2
        subst h2
        obtain ⟨a, ha, hsome, hloc, hmsg⟩ := generate_arms_error variants e2 hg
        refine ⟨?_, a, ?_, hsome, hloc⟩
        · rcases hmsg with m | m | m
          · exact Or.inr (Or.inl m)
          · exact Or.inr (Or.inr (Or.inl m))
          · exact Or.inr (Or.inr (Or.inr m))
        · refine List.mem_append_right _ ?_
          rw [hd]
          exact ha
      | ok arms =>
        rw [hg] at h
        exact Except.noConfusion h

/-- Claim C2 counterexample: a field-level `#[debug_stub = 5]` — a
name-value annotation whose value is not a string literal — raises a
configuration error ("expected string literal") that is none of the three
misconfiguration cases of section 4.1, refuting "raises a configuration
error only for the three misconfiguration cases". -/
theorem spec_c2_counterexample :
    expand_derive_serialize
      ⟨"S", [], [],
        .structData (.named [("a", [⟨7, some (.nameValue "debug_stub" (.int 5))⟩])])⟩ =
      .error ⟨7, "expected string literal"⟩ ∧
    ¬ ("expected string literal" = "expected `ignore_generics`" ∨
       "expected string literal" = "expected `List` or `NameValue`" ∨
       "expected string literal" =
         "expected `some = _`, `ok = _`, `err = _`, or `ok = _, err = _`") :=
  ⟨rfl, by decide⟩

/-- Claim C2 witness: applying the amended theorem at the concrete
non-string name-value input. -/
theorem spec_c2_witness :
    (("expected string literal" : String) = "expected `ignore_generics`" ∨
     ("expected string literal" : String) = "expected `List` or `NameValue`" ∨
     ("expected string literal" : String) =
       "expected `some = _`, `ok = _`, `err = _`, or `ok = _, err = _`" ∨
     ("expected string literal" : String) = "expected string literal") ∧
    ∃ a ∈ allAttrs
        ⟨"S", [], [],
          .structData (.named [("a", [⟨7, some (.nameValue "debug_stub" (.int 5))⟩])])⟩,
      (parsedDebugStub a).isSome ∧ (7 : Nat) = a.loc :=
  spec_c2_amended
    ⟨"S", [], [],
      .structData (.named [("a", [⟨7, some (.nameValue "debug_stub" (.int 5))⟩])])⟩
    ⟨7, "expected string literal"⟩ rfl

end DebugStubDerive
